import Mathlib

set_option maxRecDepth 16384

/-!
Verification of the stl3d toolkit's core algorithms against their
specification.  Each section embeds one engine's arithmetic or control flow
shallowly in Lean: grids are lists of lists of rationals, meshes are vertex
and face lists, and the external mesh library's operations appear as explicit
function parameters at the system boundary.
-/

namespace Stl3d

/-! ## Heightmap normalization (contour-crafting.py, topographic-layering.py)

`normalize_heightmap` returns `(heightmap - min) / (max - min)` where the
minimum and maximum range over every cell of the 2D grid. -/

/-- All cells of a 2D grid in row-major order, as `np.min`/`np.max` see them. -/
def gridValues (g : List (List ℚ)) : List ℚ := g.flatMap (fun row => row)

/-- `np.min` over a flattened array; the empty case is never reached by the
tools (an image always has at least one pixel). -/
def np_min (l : List ℚ) : ℚ :=
  match l with
  | [] => 0
  | v :: vs => vs.foldl min v

/-- `np.max` over a flattened array. -/
def np_max (l : List ℚ) : ℚ :=
  match l with
  | [] => 0
  | v :: vs => vs.foldl max v

/-- `min_val = np.min(heightmap)` -/
def grid_min (g : List (List ℚ)) : ℚ := np_min (gridValues g)

/-- `max_val = np.max(heightmap)` -/
def grid_max (g : List (List ℚ)) : ℚ := np_max (gridValues g)

/-- `normalize_heightmap` of contour-crafting.py and topographic-layering.py:
`(heightmap - min_val) / (max_val - min_val)` applied cell-wise. -/
def normalize_heightmap (heightmap : List (List ℚ)) : List (List ℚ) :=
  let min_val := grid_min heightmap
  let max_val := grid_max heightmap
  heightmap.map (fun row => row.map (fun v => (v - min_val) / (max_val - min_val)))

lemma foldl_min_le_init (l : List ℚ) (a : ℚ) : l.foldl min a ≤ a := by
  induction l generalizing a with
  | nil => exact le_refl a
  | cons x xs ih =>
    exact le_trans (ih (min a x)) (min_le_left a x)

lemma foldl_min_le_mem (l : List ℚ) (a : ℚ) : ∀ v ∈ l, l.foldl min a ≤ v := by
  induction l generalizing a with
  | nil => intro v hv; cases hv
  | cons x xs ih =>
    intro v hv
    rcases List.mem_cons.mp hv with h | h
    · subst h
      exact le_trans (foldl_min_le_init xs (min a v)) (min_le_right a v)
    · exact ih (min a x) v h

lemma foldl_min_mem (l : List ℚ) (a : ℚ) : l.foldl min a = a ∨ l.foldl min a ∈ l := by
  induction l generalizing a with
  | nil => exact Or.inl rfl
  | cons x xs ih =>
    rcases ih (min a x) with h | h
    · rcases min_choice a x with hc | hc
      · exact Or.inl (by simpa [hc] using h)
      · refine Or.inr ?_
        rw [List.foldl_cons, h, hc]
        exact List.mem_cons_self x xs
    · exact Or.inr (List.mem_cons_of_mem x h)

lemma foldl_max_ge_init (l : List ℚ) (a : ℚ) : a ≤ l.foldl max a := by
  induction l generalizing a with
  | nil => exact le_refl a
  | cons x xs ih =>
    exact le_trans (le_max_left a x) (ih (max a x))

lemma foldl_max_ge_mem (l : List ℚ) (a : ℚ) : ∀ v ∈ l, v ≤ l.foldl max a := by
  induction l generalizing a with
  | nil => intro v hv; cases hv
  | cons x xs ih =>
    intro v hv
    rcases List.mem_cons.mp hv with h | h
    · subst h
      exact le_trans (le_max_right a v) (foldl_max_ge_init xs (max a v))
    · exact ih (max a x) v h

lemma foldl_max_mem (l : List ℚ) (a : ℚ) : l.foldl max a = a ∨ l.foldl max a ∈ l := by
  induction l generalizing a with
  | nil => exact Or.inl rfl
  | cons x xs ih =>
    rcases ih (max a x) with h | h
    · rcases max_choice a x with hc | hc
      · exact Or.inl (by simpa [hc] using h)
      · refine Or.inr ?_
        rw [List.foldl_cons, h, hc]
        exact List.mem_cons_self x xs
    · exact Or.inr (List.mem_cons_of_mem x h)

lemma np_min_le (l : List ℚ) : ∀ v ∈ l, np_min l ≤ v := by
  cases l with
  | nil => intro v hv; cases hv
  | cons x xs =>
    intro v hv
    rcases List.mem_cons.mp hv with h | h
    · subst h; exact foldl_min_le_init xs v
    · exact foldl_min_le_mem xs x v h

lemma np_min_mem (l : List ℚ) (h : l ≠ []) : np_min l ∈ l := by
  cases l with
  | nil => exact absurd rfl h
  | cons x xs =>
    rcases foldl_min_mem xs x with h | h
    · simp [np_min, h]
    · exact List.mem_cons_of_mem x (by simpa [np_min] using h)

lemma np_max_ge (l : List ℚ) : ∀ v ∈ l, v ≤ np_max l := by
  cases l with
  | nil => intro v hv; cases hv
  | cons x xs =>
    intro v hv
    rcases List.mem_cons.mp hv with h | h
    · subst h; exact foldl_max_ge_init xs v
    · exact foldl_max_ge_mem xs x v h

lemma np_max_mem (l : List ℚ) (h : l ≠ []) : np_max l ∈ l := by
  cases l with
  | nil => exact absurd rfl h
  | cons x xs =>
    rcases foldl_max_mem xs x with h | h
    · simp [np_max, h]
    · exact List.mem_cons_of_mem x (by simpa [np_max] using h)

lemma gridValues_map (g : List (List ℚ)) (f : ℚ → ℚ) :
    gridValues (g.map (fun row => row.map f)) = (gridValues g).map f := by
  induction g with
  | nil => rfl
  | cons row rows ih =>
    simp [gridValues, List.flatMap] at ih ⊢
    exact ih

lemma gridValues_normalize (g : List (List ℚ)) :
    gridValues (normalize_heightmap g) =
      (gridValues g).map (fun v => (v - grid_min g) / (grid_max g - grid_min g)) := by
  unfold normalize_heightmap
  exact gridValues_map g _

/-- C1: for every non-constant 2D grid, `normalize_heightmap` returns
`(grid - min) / (max - min)` computed over the whole grid, and the output's
minimum is exactly 0 and its maximum exactly 1. -/
theorem normalize_heightmap_min_zero_max_one (g : List (List ℚ))
    (hne : gridValues g ≠ [])
    (hnc : ∃ v ∈ gridValues g, ∃ w ∈ gridValues g, v ≠ w) :
    normalize_heightmap g
      = g.map (fun row => row.map (fun v => (v - grid_min g) / (grid_max g - grid_min g))) ∧
    grid_min (normalize_heightmap g) = 0 ∧
    grid_max (normalize_heightmap g) = 1 := by
  obtain ⟨v, hv, w, hw, hvw⟩ := hnc
  have hlt : grid_min g < grid_max g := by
    rcases lt_or_gt_of_ne hvw with h | h
    · exact lt_of_le_of_lt (np_min_le _ v hv) (lt_of_lt_of_le h (np_max_ge _ w hw))
    · exact lt_of_le_of_lt (np_min_le _ w hw) (lt_of_lt_of_le h (np_max_ge _ v hv))
  have hd : 0 < grid_max g - grid_min g := sub_pos.mpr hlt
  set f : ℚ → ℚ := fun v => (v - grid_min g) / (grid_max g - grid_min g) with hf
  have hvals : gridValues (normalize_heightmap g) = (gridValues g).map f :=
    gridValues_normalize g
  have hnonempty : gridValues (normalize_heightmap g) ≠ [] := by
    rw [hvals]
    simpa using hne
  have hzero_mem : (0 : ℚ) ∈ gridValues (normalize_heightmap g) := by
    rw [hvals]
    have : f (grid_min g) = 0 := by simp [hf]
    exact this ▸ List.mem_map_of_mem f (np_min_mem _ hne)
  have hone_mem : (1 : ℚ) ∈ gridValues (normalize_heightmap g) := by
    rw [hvals]
    have : f (grid_max g) = 1 := by
      simp only [hf]
      exact div_self (ne_of_gt hd)
    exact this ▸ List.mem_map_of_mem f (np_max_mem _ hne)
  have hlow : ∀ u ∈ gridValues (normalize_heightmap g), 0 ≤ u := by
    intro u hu
    rw [hvals] at hu
    obtain ⟨x, hx, rfl⟩ := List.mem_map.mp hu
    exact div_nonneg (sub_nonneg.mpr (np_min_le _ x hx)) (le_of_lt hd)
  have hhigh : ∀ u ∈ gridValues (normalize_heightmap g), u ≤ 1 := by
    intro u hu
    rw [hvals] at hu
    obtain ⟨x, hx, rfl⟩ := List.mem_map.mp hu
    rw [div_le_one hd]
    exact sub_le_sub_right (np_max_ge _ x hx) _
  refine ⟨rfl, ?_, ?_⟩
  · exact le_antisymm (np_min_le _ 0 hzero_mem) (hlow _ (np_min_mem _ hnonempty))
  · exact le_antisymm (hhigh _ (np_max_mem _ hnonempty)) (np_max_ge _ 1 hone_mem)

/-- C1 witness: the theorem applied to the concrete non-constant grid
`[[0, 2], [1, 1]]`. -/
theorem normalize_heightmap_min_zero_max_one_witness :
    grid_min (normalize_heightmap [[0, 2], [1, 1]]) = 0 ∧
    grid_max (normalize_heightmap [[0, 2], [1, 1]]) = 1 :=
  (normalize_heightmap_min_zero_max_one [[0, 2], [1, 1]]
    (by simp [gridValues])
    ⟨0, by simp [gridValues], 2, by simp [gridValues], by norm_num⟩).2

/-- C8: for a constant-valued grid the divisor `max - min` of
`normalize_heightmap` is zero, so every cell is divided by zero. -/
theorem normalize_heightmap_constant_divisor_zero (g : List (List ℚ)) (c : ℚ)
    (hne : gridValues g ≠ [])
    (hconst : ∀ v ∈ gridValues g, v = c) :
    grid_max g - grid_min g = 0 ∧
    normalize_heightmap g = g.map (fun row => row.map (fun v => (v - grid_min g) / 0)) := by
  have hmin : grid_min g = c := hconst _ (np_min_mem _ hne)
  have hmax : grid_max g = c := hconst _ (np_max_mem _ hne)
  have hzero : grid_max g - grid_min g = 0 := by rw [hmin, hmax, sub_self]
  refine ⟨hzero, ?_⟩
  unfold normalize_heightmap
  simp only [hzero]

/-- C8 witness: the theorem applied to the constant grid `[[5, 5], [5, 5]]`. -/
theorem normalize_heightmap_constant_divisor_zero_witness :
    grid_max [[5, 5], [5, 5]] - grid_min [[5, 5], [5, 5]] = 0 :=
  (normalize_heightmap_constant_divisor_zero [[5, 5], [5, 5]] 5
    (by simp [gridValues])
    (by intro v hv; simpa [gridValues] using hv)).1

/-! ## Repair engine component filter (stl-fixer.py, `clean_model`)

After merging vertices and dropping duplicate faces, `clean_model` splits the
mesh into connected components, sorts them by face count descending, and keeps
every component whose face count is at least `0.2` times the largest
component's face count; if that discards anything, the kept components are
recombined, otherwise the mesh is left as it was. -/

/-- A triangle face, as a triple of vertex indices. -/
abbrev Face := ℕ × ℕ × ℕ

/-- A connected component of a mesh, as the list of its faces. -/
abbrev Component := List Face

/-- The sort order of `component_sizes.sort(key=size, reverse=True)`:
descending by face count. -/
def sizeDesc (a b : Component) : Prop := b.length ≤ a.length

instance : DecidableRel sizeDesc := fun a b => Nat.decLe b.length a.length

instance : IsTotal Component sizeDesc :=
  ⟨fun a b => (le_total b.length a.length).imp (fun h => h) (fun h => h)⟩

instance : IsTrans Component sizeDesc :=
  ⟨fun _ _ _ hab hbc => le_trans hbc hab⟩

/-- The component-selection stage of `clean_model`: with more than one
component, rank by face count and keep those with
`size >= main_size * 0.2`; the mesh is reassembled from the kept components
only when something was discarded. -/
def clean_model_components (components : List Component) : List Component :=
  if 1 < components.length then
    let component_sizes := List.insertionSort sizeDesc components
    let main_size := (component_sizes.headD []).length
    let threshold : ℚ := (main_size : ℚ) * (2 / 10)
    let main_components :=
      component_sizes.filter (fun comp => decide (threshold ≤ (comp.length : ℚ)))
    if main_components.length < components.length then main_components
    else components
  else components

/-- The face count of the largest connected component. -/
def largest_component_faces (components : List Component) : ℕ :=
  (components.map List.length).foldr max 0

lemma foldr_max_le (l : List ℕ) (b : ℕ) (h : ∀ x ∈ l, x ≤ b) : l.foldr max 0 ≤ b := by
  induction l with
  | nil => exact Nat.zero_le b
  | cons x xs ih =>
    exact max_le (h x (List.mem_cons_self x xs))
      (ih (fun y hy => h y (List.mem_cons_of_mem x hy)))

lemma le_foldr_max (l : List ℕ) (x : ℕ) (hx : x ∈ l) : x ≤ l.foldr max 0 := by
  induction l with
  | nil => cases hx
  | cons y ys ih =>
    rcases List.mem_cons.mp hx with h | h
    · subst h; exact le_max_left x _
    · exact le_trans (ih h) (le_max_right y _)

lemma sorted_head_length (components : List Component) (hne : components ≠ []) :
    ((List.insertionSort sizeDesc components).headD []).length
      = largest_component_faces components := by
  have hperm := List.perm_insertionSort sizeDesc components
  have hsorted := List.sorted_insertionSort sizeDesc components
  cases hs : List.insertionSort sizeDesc components with
  | nil =>
    rw [hs] at hperm
    exact absurd hperm.nil_eq.symm hne
  | cons hd tl =>
    rw [hs] at hperm hsorted
    have hmem : ∀ c ∈ components, c.length ≤ hd.length := by
      intro c hc
      rcases List.mem_cons.mp (hperm.symm.subset hc) with h | h
      · subst h; exact le_refl _
      · exact List.rel_of_sorted_cons hsorted c h
    apply le_antisymm
    · exact le_foldr_max _ _ (List.mem_map_of_mem List.length (hperm.subset (List.mem_cons_self hd tl)))
    · apply foldr_max_le
      intro x hx
      obtain ⟨c, hc, rfl⟩ := List.mem_map.mp hx
      exact hmem c hc

/-- C2 counterexample: a main component of `N = 7` faces next to a second
component of `round(0.2 × 7) = 1` face.  The code compares against the real
threshold `1.4`, so the 1-face component is discarded, while the claim's
inclusive round-boundary reading says it is retained. -/
def comp_seven : Component :=
  [(0, 1, 2), (3, 4, 5), (6, 7, 8), (9, 10, 11), (12, 13, 14), (15, 16, 17), (18, 19, 20)]

/-- The second component of the C2 counterexample: one face. -/
def comp_one : Component := [(21, 22, 23)]

/-- C2 counterexample: with a 7-face main component, a second component with
exactly `round(0.2 × 7) = 1` face is discarded by `clean_model`, not
retained. -/
theorem clean_model_round_boundary_counterexample :
    comp_one.length = (round ((comp_seven.length : ℚ) * (2 / 10))).toNat ∧
    comp_one ∉ clean_model_components [comp_seven, comp_one] := by
  constructor
  · norm_num [comp_one, comp_seven, round_eq]
  · intro hmem
    norm_num [clean_model_components, List.insertionSort, List.orderedInsert,
      sizeDesc, comp_seven, comp_one, List.filter] at hmem

/-- C2 amended: with more than one component, `clean_model` retains exactly
the components whose face count is at least `0.2` times the largest
component's face count, the comparison being the real-valued
`size ≥ 0.2 × main_size` (so a second component with `round(0.2 × N)` faces
is retained only when `round(0.2 × N) ≥ 0.2 × N`, e.g. when `N` is a
multiple of 5). -/
theorem clean_model_components_mem (components : List Component)
    (h : 1 < components.length) (c : Component) :
    c ∈ clean_model_components components ↔
      c ∈ components ∧
        (largest_component_faces components : ℚ) * (2 / 10) ≤ (c.length : ℚ) := by
  have hne : components ≠ [] := by
    intro he
    rw [he] at h
    exact absurd h (by norm_num)
  have hperm := List.perm_insertionSort sizeDesc components
  simp only [clean_model_components]
  rw [if_pos h, sorted_head_length components hne]
  set p : Component → Bool :=
    fun comp => decide ((largest_component_faces components : ℚ) * (2 / 10) ≤ (comp.length : ℚ))
    with hp
  by_cases hlen :
      (List.filter p (List.insertionSort sizeDesc components)).length < components.length
  · rw [if_pos hlen]
    rw [List.mem_filter, hperm.mem_iff, hp]
    simp
  · rw [if_neg hlen]
    have hall : ∀ a ∈ List.insertionSort sizeDesc components, p a = true := by
      rw [← List.filter_length_eq_length]
      have hle := List.length_filter_le p (List.insertionSort sizeDesc components)
      have hl := hperm.length_eq
      omega
    constructor
    · intro hc
      refine ⟨hc, ?_⟩
      have := hall c (hperm.mem_iff.mpr hc)
      rw [hp] at this
      exact of_decide_eq_true this
    · exact fun hc => hc.1

/-- C2 amended witness: components of 10 and 2 faces; `2 ≥ 0.2 × 10` holds,
so the 2-face component is retained. -/
theorem clean_model_components_mem_witness :
    ([(30, 31, 32), (33, 34, 35)] : Component) ∈
      clean_model_components
        [[(0, 1, 2), (3, 4, 5), (6, 7, 8), (9, 10, 11), (12, 13, 14),
          (15, 16, 17), (18, 19, 20), (21, 22, 23), (24, 25, 26), (27, 28, 29)],
         [(30, 31, 32), (33, 34, 35)]] :=
  (clean_model_components_mem
    [[(0, 1, 2), (3, 4, 5), (6, 7, 8), (9, 10, 11), (12, 13, 14),
      (15, 16, 17), (18, 19, 20), (21, 22, 23), (24, 25, 26), (27, 28, 29)],
     [(30, 31, 32), (33, 34, 35)]]
    (by norm_num) [(30, 31, 32), (33, 34, 35)]).mpr
    ⟨by norm_num, by norm_num [largest_component_faces]⟩

/-! ## Reduction engine decimation target (stl-reducer.py, `reduce_mesh_size`)

`original_faces` is recorded right after loading, before duplicate removal;
the decimation target is `target_faces = int(original_faces *
reduction_factor)`. -/

/-- Python's `int(...)` conversion of a number: truncation toward zero. -/
def python_int (q : ℚ) : ℤ := if q < 0 then -⌊-q⌋ else ⌊q⌋

/-- `target_faces = int(original_faces * reduction_factor)` from
`reduce_mesh_size`. -/
def target_faces (original_faces : ℕ) (reduction_factor : ℚ) : ℤ :=
  python_int ((original_faces : ℚ) * reduction_factor)

/-- Modelled from the spec: the claimed formula
`target_faces = round(original_face_count × reduction_factor)`. -/
def target_faces_claimed (original_faces : ℕ) (reduction_factor : ℚ) : ℤ :=
  round ((original_faces : ℚ) * reduction_factor)

/-- C3 counterexample: for 3 original faces and reduction factor `1/2` the
code truncates to `int(1.5) = 1`, while the claimed `round(1.5) = 2`. -/
theorem target_faces_counterexample :
    target_faces 3 (1 / 2) = 1 ∧ target_faces_claimed 3 (1 / 2) = 2 ∧
    target_faces 3 (1 / 2) ≠ target_faces_claimed 3 (1 / 2) := by
  refine ⟨?_, ?_, ?_⟩ <;>
    norm_num [target_faces, target_faces_claimed, python_int, round_eq]

/-- C3 amended: for `0 < reduction_factor ≤ 1` the decimation target is the
truncation `⌊original_faces × reduction_factor⌋` (not the rounding): it is
the greatest integer not above `original_faces × reduction_factor`, and lies
between 0 and `original_faces`. -/
theorem target_faces_floor (n : ℕ) (f : ℚ) (h0 : 0 < f) (h1 : f ≤ 1) :
    (target_faces n f : ℚ) ≤ (n : ℚ) * f ∧
    (n : ℚ) * f - 1 < (target_faces n f : ℚ) ∧
    0 ≤ target_faces n f ∧ target_faces n f ≤ (n : ℤ) := by
  have hnn : 0 ≤ (n : ℚ) * f := mul_nonneg (by positivity) h0.le
  have hfl : target_faces n f = ⌊(n : ℚ) * f⌋ := by
    unfold target_faces python_int
    rw [if_neg (not_lt.mpr hnn)]
  rw [hfl]
  refine ⟨Int.floor_le _, ?_, Int.floor_nonneg.mpr hnn, ?_⟩
  · have := Int.sub_one_lt_floor ((n : ℚ) * f)
    linarith
  · have hle : (n : ℚ) * f ≤ (n : ℚ) := by nlinarith
    calc ⌊(n : ℚ) * f⌋ ≤ ⌊(n : ℚ)⌋ := Int.floor_le_floor hle
    _ = (n : ℤ) := Int.floor_natCast n

/-- C3 amended witness: the amended theorem at 3 faces and factor `1/2`. -/
theorem target_faces_floor_witness :
    0 ≤ target_faces 3 (1 / 2) ∧ target_faces 3 (1 / 2) ≤ (3 : ℤ) :=
  ⟨(target_faces_floor 3 (1 / 2) (by norm_num) (by norm_num)).2.2.1,
   (target_faces_floor 3 (1 / 2) (by norm_num) (by norm_num)).2.2.2⟩

/-! ## Repair engine iterative loop (stl-fixer.py, `fix_stl`)

The basic-repair bundle (merge vertices, drop duplicate faces, fill holes,
fix normals, validate) is an external mesh-library pipeline, modelled as an
arbitrary step function; `fix_stl` runs it inside
`while (not watertight or not winding_consistent) and iteration < max:`,
breaking early once the mesh is watertight. -/

/-- The iterative repair loop of `fix_stl`: enter the body only while the
mesh is not watertight or not winding-consistent and iterations remain;
inside, apply the basic-repair bundle `step` and break early if the result
is watertight. -/
def repair_loop {M : Type} (step : M → M) (watertight winding : M → Bool) :
    ℕ → M → M
  | 0, m => m
  | fuel + 1, m =>
    if watertight m && winding m then m
    else
      let m' := step m
      if watertight m' then m' else repair_loop step watertight winding fuel m'

/-- C4: a mesh that is already watertight and winding-consistent passes
through the repair loop unchanged (so its vertex and face counts are
unchanged), and in particular a second run after a first is a no-op on such
a mesh, because the loop body is entered only while the mesh is not
watertight or not winding-consistent. -/
theorem repair_loop_noop {M : Type} (step : M → M) (watertight winding : M → Bool)
    (max_iterations : ℕ) (m : M)
    (hw : watertight m = true) (hc : winding m = true) :
    repair_loop step watertight winding max_iterations m = m ∧
    repair_loop step watertight winding max_iterations
        (repair_loop step watertight winding max_iterations m)
      = repair_loop step watertight winding max_iterations m := by
  have hstop : repair_loop step watertight winding max_iterations m = m := by
    cases max_iterations with
    | zero => rfl
    | succ fuel =>
      unfold repair_loop
      rw [hw, hc]
      rfl
  exact ⟨hstop, by rw [hstop, hstop]⟩

/-- C4 witness: the theorem applied to a concrete two-iteration loop over ℕ
whose step function would change the value if it ran. -/
theorem repair_loop_noop_witness :
    repair_loop Nat.succ (fun _ => true) (fun _ => true) 2 5 = 5 :=
  (repair_loop_noop Nat.succ (fun _ => true) (fun _ => true) 2 5 rfl rfl).1

/-! ## Height-field engine rotations (image-to-stl.py, `image_to_stl`)

After mesh construction the requested 90° rotations are applied to the
vertex array, sequentially in x, y, z order: rotate_x sets `(y,z) = (z,−y)`,
rotate_y sets `(x,z) = (z,−x)`, rotate_z sets `(x,y) = (y,−x)`. -/

/-- A vertex of the height-field mesh. -/
abbrev Vec3 := ℚ × ℚ × ℚ

/-- `vertices[:,1] = Z; vertices[:,2] = -Y` (rotation around the x axis). -/
def rotate_x (v : Vec3) : Vec3 := (v.1, v.2.2, -v.2.1)

/-- `vertices[:,0] = Z; vertices[:,2] = -X` (rotation around the y axis). -/
def rotate_y (v : Vec3) : Vec3 := (v.2.2, v.2.1, -v.1)

/-- `vertices[:,0] = Y; vertices[:,1] = -X` (rotation around the z axis). -/
def rotate_z (v : Vec3) : Vec3 := (v.2.1, -v.1, v.2.2)

/-- The rotation stage of `image_to_stl`: the three `if rotate_*` blocks in
source order, applied to every vertex of the array. -/
def apply_rotations (rx ry rz : Bool) (vertices : List Vec3) : List Vec3 :=
  let v1 := if rx then vertices.map rotate_x else vertices
  let v2 := if ry then v1.map rotate_y else v1
  if rz then v2.map rotate_z else v2

/-- Modelled from the spec: the literal axis transform `(y,z) = (z,−y)`. -/
def spec_transform_x (v : Vec3) : Vec3 := (v.1, v.2.2, -v.2.1)

/-- Modelled from the spec: the literal axis transform `(x,y) = (y,−x)`. -/
def spec_transform_z (v : Vec3) : Vec3 := (v.2.1, -v.1, v.2.2)

/-- C6: requesting rotate_x and rotate_z yields exactly the composition of
the two literal axis transforms `(y,z) = (z,−y)` followed by
`(x,y) = (y,−x)` on every vertex, and for any combination of flags the
rotations are applied sequentially in x, y, z order. -/
theorem apply_rotations_literal_composition :
    (∀ vertices : List Vec3,
      apply_rotations true false true vertices
        = vertices.map (fun v => spec_transform_z (spec_transform_x v))) ∧
    (∀ (rx ry rz : Bool) (vertices : List Vec3),
      apply_rotations rx ry rz vertices
        = ((if rz then List.map rotate_z else id)
            ((if ry then List.map rotate_y else id)
              ((if rx then List.map rotate_x else id) vertices)))) := by
  constructor
  · intro vertices
    simp only [apply_rotations, if_pos, if_neg, Bool.false_eq_true, not_false_iff,
      if_true, if_false, List.map_map]
    rfl
  · intro rx ry rz vertices
    cases rx <;> cases ry <;> cases rz <;> rfl

/-! ## Degenerate-triangle removal (stl-fixer.py `clean_model` step 3,
stl-reducer.py `reduce_mesh_size` step 4)

Both engines end by computing each triangle's area with the external mesh
library and keeping only faces whose computed area exceeds `1e-8`.  Faces
are modelled paired with the area computed for them. -/

/-- The final filter of `clean_model` and of `reduce_mesh_size`: when the
mesh has faces, compute `valid_faces = areas > 1e-8` and, unless all faces
are valid, keep only the valid ones. -/
def remove_degenerate_faces (faces : List (Face × ℚ)) : List (Face × ℚ) :=
  if 0 < faces.length then
    let valid : Face × ℚ → Bool := fun fa => decide ((1 : ℚ) / 100000000 < fa.2)
    if faces.all valid then faces
    else faces.filter valid
  else faces

/-- C7: after the degenerate-triangle removal that ends both `clean_model`
and `reduce_mesh_size`, no face of the result has computed area `≤ 1e-8`:
every face with area `≤ 1e-8` is dropped and every face with area `> 1e-8`
is kept. -/
theorem remove_degenerate_faces_spec (faces : List (Face × ℚ)) :
    (∀ fa ∈ remove_degenerate_faces faces, ¬ (fa.2 ≤ (1 : ℚ) / 100000000)) ∧
    (∀ fa ∈ faces, (1 : ℚ) / 100000000 < fa.2 → fa ∈ remove_degenerate_faces faces) := by
  unfold remove_degenerate_faces
  by_cases hlen : 0 < faces.length
  · rw [if_pos hlen]
    set valid : Face × ℚ → Bool := fun fa => decide ((1 : ℚ) / 100000000 < fa.2) with hv
    by_cases hall : faces.all valid
    · rw [if_pos hall]
      constructor
      · intro fa hfa
        have := List.all_eq_true.mp hall fa hfa
        rw [hv] at this
        exact not_le.mpr (of_decide_eq_true this)
      · exact fun fa hfa _ => hfa
    · rw [if_neg hall]
      constructor
      · intro fa hfa
        have := (List.mem_filter.mp hfa).2
        rw [hv] at this
        exact not_le.mpr (of_decide_eq_true this)
      · intro fa hfa harea
        exact List.mem_filter.mpr ⟨hfa, by rw [hv]; exact decide_eq_true harea⟩
  · rw [if_neg hlen]
    have : faces = [] := List.length_eq_zero.mp (by omega)
    subst this
    exact ⟨fun fa hfa => absurd hfa (List.not_mem_nil fa),
           fun fa hfa => absurd hfa (List.not_mem_nil fa)⟩

/-! ## Output-path adjustment of the `output/<tool>/` tools

contour-crafting.py and stl-reducer.py always join the output directory with
`os.path.basename` of the supplied path; image-to-stl.py joins with the
basename only when the supplied path has no directory part or does not
already start (as a string) with `output/image-to-stl`.  POSIX path
functions are modelled on `String`. -/

/-- One character list is a leading segment of another. -/
def charsLead : List Char → List Char → Bool
  | [], _ => true
  | _ :: _, [] => false
  | a :: as, b :: bs => a == b && charsLead as bs

/-- Python `str.startswith`. -/
def str_startswith (s pre : String) : Bool := charsLead pre.data s.data

/-- Python `str.endswith`. -/
def str_endswith (s suf : String) : Bool :=
  charsLead suf.data.reverse s.data.reverse

/-- `os.path.basename`: the part after the last slash. -/
def basename (p : String) : String :=
  String.mk ((p.data.reverse.takeWhile (fun c => c ≠ '/')).reverse)

/-- `os.path.dirname`: the part before the last slash, trailing slashes
stripped unless the head is all slashes. -/
def dirname (p : String) : String :=
  let tail_len := (p.data.reverse.takeWhile (fun c => c ≠ '/')).length
  let head := p.data.take (p.data.length - tail_len)
  if head.all (fun c => c = '/') then String.mk head
  else String.mk ((head.reverse.dropWhile (fun c => c = '/')).reverse)

/-- `os.path.join` for two parts. -/
def joinPath (a b : String) : String :=
  if str_startswith b "/" then b
  else if a = "" ∨ str_endswith a "/" then String.mk (a.data ++ b.data)
  else String.mk (a.data ++ '/' :: b.data)

/-- `os.path.isabs`. -/
def isabs (p : String) : Bool := str_startswith p "/"

/-- The output-path adjustment of `contour_crafting`: under
`output/contour-crafting/`, keeping only the supplied path's basename in
both the absolute and the relative branch. -/
def contour_crafting_output_path (output_path : String) : String :=
  let output_dir := joinPath "output" "contour-crafting"
  if isabs output_path then joinPath output_dir (basename output_path)
  else joinPath output_dir (basename output_path)

/-- The output-path adjustment of `reduce_mesh_size`: under
`output/stl-reducer/`, keeping only the supplied path's basename in both
branches. -/
def reduce_mesh_size_output_path (output_file : String) : String :=
  let output_dir := joinPath "output" "stl-reducer"
  if isabs output_file then joinPath output_dir (basename output_file)
  else joinPath output_dir (basename output_file)

/-- The output-path adjustment of image-to-stl.py `main` for a supplied
`-o` path: join the basename into `output/image-to-stl` when the path has
no directory part or does not start with the output directory; otherwise
keep the path as given. -/
def image_to_stl_output_path (output : String) : String :=
  let output_dir := "output/image-to-stl"
  if dirname output = "" then joinPath output_dir (basename output)
  else if !(str_startswith output output_dir) then joinPath output_dir (basename output)
  else output

/-- C5 counterexample: image-to-stl keeps the supplied path
`output/image-to-stl/extra/name.stl` unchanged (it starts with the output
directory), so the artifact is not placed at
`output/image-to-stl/name.stl` and the intermediate directory component is
not discarded. -/
theorem image_to_stl_output_path_counterexample :
    image_to_stl_output_path "output/image-to-stl/extra/name.stl"
      = "output/image-to-stl/extra/name.stl" ∧
    image_to_stl_output_path "output/image-to-stl/extra/name.stl"
      ≠ "output/image-to-stl/name.stl" := by
  constructor
  · decide
  · decide

/-- C5 amended: contour-crafting and stl-reducer place the artifact at
`output/<tool>/<basename>` for every supplied path, and image-to-stl does so
whenever the supplied path does not already start (as a string) with
`output/image-to-stl`; a path that does start with it is used unchanged,
intermediate directories included. -/
theorem output_path_basename_only (p : String)
    (h : str_startswith p "output/image-to-stl" = false) :
    contour_crafting_output_path p = joinPath "output/contour-crafting" (basename p) ∧
    reduce_mesh_size_output_path p = joinPath "output/stl-reducer" (basename p) ∧
    image_to_stl_output_path p = joinPath "output/image-to-stl" (basename p) := by
  refine ⟨?_, ?_, ?_⟩
  · simp only [contour_crafting_output_path, ite_self]
    rw [(by decide : joinPath "output" "contour-crafting" = "output/contour-crafting")]
  · simp only [reduce_mesh_size_output_path, ite_self]
    rw [(by decide : joinPath "output" "stl-reducer" = "output/stl-reducer")]
  · simp only [image_to_stl_output_path]
    by_cases hd : dirname p = ""
    · rw [if_pos hd]
    · rw [if_neg hd, if_pos (by rw [h]; rfl)]

/-- C5 amended witness: the relative path `some/dir/name.stl` lands at
`output/<tool>/name.stl` for all three tools. -/
theorem output_path_basename_only_witness :
    contour_crafting_output_path "some/dir/name.stl" = "output/contour-crafting/name.stl" ∧
    reduce_mesh_size_output_path "some/dir/name.stl" = "output/stl-reducer/name.stl" ∧
    image_to_stl_output_path "some/dir/name.stl" = "output/image-to-stl/name.stl" := by
  have h := output_path_basename_only "some/dir/name.stl" (by decide)
  exact ⟨h.1.trans (by decide), h.2.1.trans (by decide), h.2.2.trans (by decide)⟩

/-! ## Text engine, `add_base=False` path (stl3d-gui/modules/text_to_stl.py)

From the rendered raster onward: pixels darker than luminance 200 get height
`255 - value`, the rest height 0; `z_grid = height_field / 255 * thickness`;
with no base requested, a box is emitted only for surviving pixels
(`z_grid > 0`) that have at least one surviving 4-connected neighbor, and
the function returns `None` (no STL is exported) when no pixel survives or
when the vertex/face lists end up empty. -/

/-- `height_field`: `255 - value` for pixels darker than the fixed
threshold 200, else 0. -/
def height_field (img : ℕ → ℕ → ℕ) (y x : ℕ) : ℕ :=
  if img y x < 200 then 255 - img y x else 0

/-- `z_grid = height_field / 255.0 * thickness`. -/
def z_grid (img : ℕ → ℕ → ℕ) (thickness : ℚ) (y x : ℕ) : ℚ :=
  (height_field img y x : ℚ) / 255 * thickness

/-- The second-phase mask `z_grid > 0` (a surviving text pixel). -/
def surviving (img : ℕ → ℕ → ℕ) (thickness : ℚ) (y x : ℕ) : Bool :=
  decide (0 < z_grid img thickness y x)

/-- The raster's cell indices in row-major order, as `np.where` yields
them. -/
def cells (h w : ℕ) : List (ℕ × ℕ) :=
  (List.range h).flatMap (fun y => (List.range w).map (fun x => (y, x)))

/-- A neighbor probe `(ny, nx)`: in bounds and surviving. -/
def surv_at (h w : ℕ) (img : ℕ → ℕ → ℕ) (thickness : ℚ) (ny nx : ℤ) : Bool :=
  decide (0 ≤ ny) && decide (ny < (h : ℤ)) && decide (0 ≤ nx) && decide (nx < (w : ℤ)) &&
    surviving img thickness ny.toNat nx.toNat

/-- `has_neighbors`: at least one of the four 4-connected neighbors is in
bounds and surviving. -/
def has_neighbors (h w : ℕ) (img : ℕ → ℕ → ℕ) (thickness : ℚ) (y x : ℕ) : Bool :=
  [((y : ℤ) - 1, (x : ℤ)), ((y : ℤ) + 1, (x : ℤ)),
   ((y : ℤ), (x : ℤ) - 1), ((y : ℤ), (x : ℤ) + 1)].any
    (fun n => surv_at h w img thickness n.1 n.2)

/-- The 8 corners of the per-pixel box: four top corners at the pixel's
`z_grid` height and four at `z = 0`, on the 0.254 mm grid. -/
def box_vertices (img : ℕ → ℕ → ℕ) (thickness : ℚ) (y x : ℕ) : List Vec3 :=
  let gx := (x : ℚ) / 100 * (254 / 10)
  let gy := (y : ℚ) / 100 * (254 / 10)
  let s := (254 : ℚ) / 1000
  let z := z_grid img thickness y x
  [(gx, gy, z), (gx + s, gy, z), (gx, gy + s, z), (gx + s, gy + s, z),
   (gx, gy, 0), (gx + s, gy, 0), (gx, gy + s, 0), (gx + s, gy + s, 0)]

/-- The 12 triangles of the per-pixel box (2 top, 2 bottom, 8 sides),
with local corner indices offset by the running vertex count `base`. -/
def box_faces (base : ℕ) : List Face :=
  [(base, base + 1, base + 2), (base + 2, base + 1, base + 3),
   (base + 4, base + 6, base + 5), (base + 6, base + 7, base + 5),
   (base, base + 4, base + 1), (base + 1, base + 4, base + 5),
   (base + 1, base + 5, base + 3), (base + 3, base + 5, base + 7),
   (base + 3, base + 7, base + 2), (base + 2, base + 7, base + 6),
   (base + 2, base + 6, base), (base, base + 6, base + 4)]

/-- The `add_base=False` branch of `text_to_stl` from the thresholded raster
onward: abort with `None` when no pixel survives; emit one box per surviving
pixel with a surviving 4-connected neighbor; abort with `None` (before any
export) when the vertex or face list is empty; otherwise the mesh that gets
exported. -/
def text_to_stl_no_base (h w : ℕ) (img : ℕ → ℕ → ℕ) (thickness : ℚ) :
    Option (List Vec3 × List Face) :=
  if (cells h w).all (fun c => !(surviving img thickness c.1 c.2)) then none
  else
    let retained := (cells h w).filter
      (fun c => surviving img thickness c.1 c.2 && has_neighbors h w img thickness c.1 c.2)
    let vertices := retained.flatMap (fun c => box_vertices img thickness c.1 c.2)
    let faces := retained.enum.flatMap (fun ic => box_faces (8 * ic.1))
    if 0 < vertices.length ∧ 0 < faces.length then some (vertices, faces) else none

lemma mem_cells (h w : ℕ) (c : ℕ × ℕ) : c ∈ cells h w ↔ c.1 < h ∧ c.2 < w := by
  rcases c with ⟨y, x⟩
  simp [cells]

/-- C9: when no pixel of the raster is darker than the threshold 200 (for
instance blank or whitespace-only text), the `add_base=False` text engine
returns the failure signal `None` and exports nothing. -/
theorem text_to_stl_blank_raster_fails (h w : ℕ) (img : ℕ → ℕ → ℕ) (thickness : ℚ)
    (hlight : ∀ y < h, ∀ x < w, 200 ≤ img y x) :
    text_to_stl_no_base h w img thickness = none := by
  unfold text_to_stl_no_base
  rw [if_pos]
  refine List.all_eq_true.mpr ?_
  intro c hc
  obtain ⟨hy, hx⟩ := (mem_cells h w c).mp hc
  have hz : height_field img c.1 c.2 = 0 := by
    unfold height_field
    rw [if_neg (not_lt.mpr (hlight c.1 hy c.2 hx))]
  simp [surviving, z_grid, hz]

/-- C9 witness: a 1×1 all-white raster. -/
theorem text_to_stl_blank_raster_fails_witness :
    text_to_stl_no_base 1 1 (fun _ _ => 255) 10 = none :=
  text_to_stl_blank_raster_fails 1 1 (fun _ _ => 255) 10
    (fun _ _ _ _ => by norm_num)

/-- C10: when some pixels survive the threshold but none of them has a
surviving 4-connected neighbor, the `add_base=False` text engine emits no
box, so the vertex list is empty and it returns the failure signal `None`
before any export. -/
theorem text_to_stl_isolated_pixels_fail (h w : ℕ) (img : ℕ → ℕ → ℕ) (thickness : ℚ)
    (hsome : ∃ c ∈ cells h w, surviving img thickness c.1 c.2 = true)
    (hiso : ∀ c ∈ cells h w, surviving img thickness c.1 c.2 = true →
      has_neighbors h w img thickness c.1 c.2 = false) :
    text_to_stl_no_base h w img thickness = none := by
  unfold text_to_stl_no_base
  rw [if_neg]
  · have hret : (cells h w).filter
        (fun c => surviving img thickness c.1 c.2 && has_neighbors h w img thickness c.1 c.2)
        = [] := by
      rw [List.filter_eq_nil_iff]
      intro c hc
      cases hsurv : surviving img thickness c.1 c.2 with
      | false => simp [hsurv]
      | true => simp [hsurv, hiso c hc hsurv]
    simp [hret]
  · intro hall
    obtain ⟨c, hc, hs⟩ := hsome
    have := List.all_eq_true.mp hall c hc
    rw [hs] at this
    exact absurd this (by simp)

/-- C10 witness: a 1×1 raster with a single dark, necessarily isolated
pixel. -/
theorem text_to_stl_isolated_pixels_fail_witness :
    text_to_stl_no_base 1 1 (fun _ _ => 100) 10 = none :=
  text_to_stl_isolated_pixels_fail 1 1 (fun _ _ => 100) 10
    ⟨(0, 0), by simp [cells], by norm_num [surviving, z_grid, height_field]⟩
    (by
      intro c hc hs
      rcases c with ⟨y, x⟩
      obtain ⟨hy, hx⟩ := (mem_cells 1 1 (y, x)).mp hc
      have hy0 : y = 0 := by omega
      have hx0 : x = 0 := by omega
      subst hy0
      subst hx0
      norm_num [has_neighbors, surv_at])

end Stl3d
